import Mathlib

/-!
# Verification of the redaxios request pipeline

This file gives a shallow embedding, in Lean 4, of the functional core of the
redaxios HTTP client (file `src/index.js` of the repository, current variant:
the `deepMerge` helper and the `redaxios` request orchestrator) and of the
interceptor registry (`src/interceptor.js`), and proves or refutes the frozen
claims about them.

Modelling conventions:

* JavaScript values are modelled by the inductive type `JVal`.  Numbers are
  modelled as integers (all numbers appearing in the claims are integers);
  functions are modelled as opaque references `JVal.fnref n`, whose behaviour
  (when the source calls them) is supplied by a `Host` structure, since
  user-supplied callbacks such as `transformRequest` entries,
  `validateStatus` and `paramsSerializer` are external to the repository.
* JavaScript objects are modelled as ordered association lists, with `for-in`
  enumeration order equal to insertion order.  (JavaScript additionally
  reorders integer-like keys first; no key involved in the claims is
  integer-like, so this refinement is not modelled.)
* Host builtins used by the source (`JSON.stringify`, `JSON.parse`,
  `decodeURIComponent`, and application of user callbacks) are fields of the
  `Host` structure; theorems quantify over the host.  Deterministic host
  coercions (`String(v)`, `URLSearchParams` serialization, the cookie regular
  expression, the `baseURL` rewrite) are modelled concretely below.
* The `deepMerge` recursion is embedded fuel-indexed (`deepMergeF`), with
  `none` meaning fuel exhaustion; the JavaScript function recurses through
  arbitrary object graphs, and the fuel keeps the Lean embedding structural
  (hence executable by `rfl`).  Theorems take the hypothesis that the merge
  succeeded, and witnesses show concrete fuels suffice.
* A second, heap-instrumented embedding `deepMergeH` is used for the
  frame/freshness claim about `deepMerge` (claim C3), where object identity
  and mutation are observable: objects live in an explicit heap (a list of
  cells addressed by position), and allocation appends to the heap.
-/

/-- Model of a JavaScript value.  `fnref` is an opaque function reference
(functions are external behaviour, supplied by the `Host`); `obj` is an
ordered association list of own enumerable properties. -/
inductive JVal where
  | undef : JVal
  | null : JVal
  | bool : Bool → JVal
  | num : Int → JVal
  | str : String → JVal
  | arr : List JVal → JVal
  | obj : List (String × JVal) → JVal
  | fnref : Nat → JVal

/-- ASCII lower-casing of one character (model of the case folding
`String.prototype.toLowerCase` performs on the header names involved; all
header names in the source and the claims are ASCII). -/
def lowerChar (c : Char) : Char :=
  if 65 ≤ c.toNat ∧ c.toNat ≤ 90 then Char.ofNat (c.toNat + 32) else c

/-- Model of `s.toLowerCase()`. -/
def lowerStr (s : String) : String :=
  String.mk (s.data.map lowerChar)

/-- Whether `pat` occurs as a contiguous subsequence of `l`. -/
def containsSeq : List Char → List Char → Bool
  | [], pat => pat.isPrefixOf []
  | c :: rest, pat => pat.isPrefixOf (c :: rest) || containsSeq rest pat

/-- Whether the string `pat` occurs inside `s` (used for the `//` test the
`baseURL` regular expression performs). -/
def strHasSub (s pat : String) : Bool :=
  containsSeq s.data pat.data

/-- Whether `s` starts with `pat`. -/
def strStartsWith (s pat : String) : Bool :=
  pat.data.isPrefixOf s.data

/-- Whether the character `c` occurs in `s`. -/
def strHasChar (s : String) (c : Char) : Bool :=
  s.data.contains c

/-- Lookup of a key in an object property list (`o[k]` when present).
Polymorphic in the value type so both the plain and the heap model share it. -/
def getKey {α : Type} (l : List (String × α)) (k : String) : Option α :=
  (l.find? (fun p => p.1 == k)).map (fun p => p.2)

/-- Whether a key is present (the JavaScript `k in o` test). -/
def hasKey {α : Type} (l : List (String × α)) (k : String) : Bool :=
  l.any (fun p => p.1 == k)

/-- Property assignment `o[k] = v` on an ordered property list: an existing
key keeps its position (and spelling), a new key is appended. -/
def setKey {α : Type} (l : List (String × α)) (k : String) (v : α) : List (String × α) :=
  if hasKey l k then l.map (fun p => if p.1 == k then (p.1, v) else p) else l ++ [(k, v)]

/-- Lookup with the JavaScript default for a missing property (`undefined`). -/
def getKeyD (l : List (String × JVal)) (k : String) : JVal :=
  (getKey l k).getD JVal.undef

/-- Property access `v.k` / `v[k]`: defined for objects, `undefined`
otherwise (arrays and primitives have none of the properties the source
reads on them, apart from methods which are modelled separately). -/
def jsGetProp (v : JVal) (k : String) : JVal :=
  match v with
  | JVal.obj l => getKeyD l k
  | _ => JVal.undef

/-- JavaScript truthiness. -/
def jsTruthy (v : JVal) : Bool :=
  match v with
  | JVal.undef => false
  | JVal.null => false
  | JVal.bool b => b
  | JVal.num n => n != 0
  | JVal.str s => s != ""
  | _ => true

/-- The test `typeof v == 'object'`: true for objects, arrays and `null`. -/
def jsTypeofObject (v : JVal) : Bool :=
  match v with
  | JVal.null => true
  | JVal.arr _ => true
  | JVal.obj _ => true
  | _ => false

/-- The test `typeof v == 'function'`. -/
def isFn (v : JVal) : Bool :=
  match v with
  | JVal.fnref _ => true
  | _ => false

/-- The JavaScript short-circuit `a || b`. -/
def jsOr (a b : JVal) : JVal :=
  if jsTruthy a then a else b

/-- String coercion `String(v)` for primitive values; an object coerces to
`"[object Object]"`.  (Arrays are handled one level deep in `jsToString`.) -/
def jsToStringPrim (v : JVal) : String :=
  match v with
  | JVal.undef => "undefined"
  | JVal.null => "null"
  | JVal.bool b => if b then "true" else "false"
  | JVal.num n => toString n
  | JVal.str s => s
  | JVal.arr _ => ""
  | JVal.obj _ => "[object Object]"
  | JVal.fnref _ => "function"

/-- String coercion of an array element inside `Array.prototype.toString`:
`null` and `undefined` coerce to the empty string.  Nested arrays are
approximated by the empty string (no claim exercises them). -/
def jsToStringElem (v : JVal) : String :=
  match v with
  | JVal.undef => ""
  | JVal.null => ""
  | v => jsToStringPrim v

/-- String coercion `String(v)`, including the array case
(comma-joined element coercions). -/
def jsToString (v : JVal) : String :=
  match v with
  | JVal.arr xs => String.intercalate "," (xs.map jsToStringElem)
  | v => jsToStringPrim v

/-- Enumeration order of `for (i in v)`: own properties for objects, index
keys for arrays, character-index keys for strings, nothing otherwise. -/
def forInEntries (v : JVal) : List (String × JVal) :=
  match v with
  | JVal.obj l => l
  | JVal.arr xs => (xs.enum).map (fun p => (toString p.1, p.2))
  | JVal.str s => (s.toList.enum).map (fun p => (toString p.1, JVal.str (String.singleton p.2)))
  | _ => []

/-- Key folding used by `deepMerge`: `lowerCase ? i.toLowerCase() : i`. -/
def foldKey (lowerCase : Bool) (k : String) : String :=
  if lowerCase then lowerStr k else k

/-- The spread performed by `opts.concat(overrides)`: an array argument is
spread, anything else is appended as a single element. -/
def jsConcatArg (v : JVal) : List JVal :=
  match v with
  | JVal.arr ys => ys
  | v => [v]

/-- The copy loop `for (i in x) out[key] = x[i]` with key folding, starting
from the accumulated object `acc` (both loops of `deepMerge` have this
shape). -/
def lowerFoldFrom {α : Type} (lowerCase : Bool) (acc l : List (String × α)) :
    List (String × α) :=
  l.foldl (fun out p => setKey out (foldKey lowerCase p.1) p.2) acc

/-- One step of the override loop of `deepMerge`:
`out[key] = key in out && typeof value == 'object' ?
deepMerge(out[key], value, key === 'headers') : value`, with the recursive
call abstracted as `rec`. -/
def mergeEntryWith (rec : JVal → JVal → Bool → Option JVal) (lowerCase : Bool)
    (out : List (String × JVal)) (p : String × JVal) :
    Option (List (String × JVal)) :=
  let key := foldKey lowerCase p.1
  if hasKey out key && jsTypeofObject p.2 then
    (rec (getKeyD out key) p.2 (key == "headers")).map (fun m => setKey out key m)
  else some (setKey out key p.2)

/-- Fuel-indexed embedding of `deepMerge(opts, overrides, lowerCase)` from
`src/index.js`: if `opts` is an array the concatenation of the two arguments
is returned; otherwise every entry of `opts` is copied (key folded), then
every entry of `overrides` is written over it, recursing when the key is
already present and the override value is object-typed, with case folding
forced on for the nested merge exactly when the folded key is `"headers"`.
`none` means the fuel ran out. -/
def deepMergeF : Nat → JVal → JVal → Bool → Option JVal
  | 0, _, _, _ => none
  | Nat.succ fuel, opts, overrides, lowerCase =>
    match opts with
    | JVal.arr xs => some (JVal.arr (xs ++ jsConcatArg overrides))
    | _ =>
      ((forInEntries overrides).foldlM
        (mergeEntryWith (fun a b c => deepMergeF fuel a b c) lowerCase)
        (lowerFoldFrom lowerCase [] (forInEntries opts))).map JVal.obj

/-- External behaviour the source consumes: user-supplied callbacks and the
host builtins whose semantics live outside the repository.  Theorems
quantify over the host; concrete instances used in counterexamples agree
with the real host functions on every input they are applied to. -/
structure Host where
  /-- Application `f(body, headers)` of a `transformRequest` entry. -/
  call : JVal → JVal → JVal → JVal
  /-- Application `validateStatus(status)`. -/
  validate : JVal → Nat → Bool
  /-- Application `paramsSerializer(params)`, string-coerced. -/
  serializeParams : JVal → JVal → String
  /-- The builtin `JSON.stringify` restricted to the values it is called on. -/
  stringify : JVal → String
  /-- The builtin `JSON.parse`; `none` models a thrown `SyntaxError`. -/
  jsonParse : String → Option JVal
  /-- The builtin `decodeURIComponent`. -/
  decodeURIComp : String → String

/-- The capture `([^;]*)`: the cookie value runs to the next `;` or the end. -/
def cookieValue (l : List Char) : List Char :=
  l.takeWhile (fun c => c ≠ ';')

/-- Scan for the pattern occurrence used by the alternative `; name=` of the
cookie regular expression: leftmost position whose suffix starts with
`pat`; returns the remainder after the pattern. -/
def scanFor : List Char → List Char → Option (List Char)
  | [], pat => if pat.isPrefixOf ([] : List Char) then some [] else none
  | c :: rest, pat =>
    if pat.isPrefixOf (c :: rest) then some ((c :: rest).drop pat.length)
    else scanFor rest pat

/-- Model of `cookies.match(RegExp('(^|; )' + name + '=([^;]*)'))`, returning
the captured value of the first match: either `name=` at the very start of
the cookie string, or the leftmost `; name=`.  Faithful for names free of
regular-expression metacharacters (every name the claims exercise is). -/
def cookieMatch (cookies name : String) : Option String :=
  let cl := cookies.data
  let nm := (name ++ "=").data
  if nm.isPrefixOf cl then some (String.mk (cookieValue (cl.drop nm.length)))
  else (scanFor cl (("; " ++ name ++ "=").data)).map (fun l => String.mk (cookieValue l))

/-- Characters the `application/x-www-form-urlencoded` serializer leaves
unescaped. -/
def formSafe (c : Char) : Bool :=
  c.isAlphanum || c = '*' || c = '-' || c = '.' || c = '_'

/-- One hexadecimal digit, upper case. -/
def hexDigit (n : Nat) : Char :=
  if n < 10 then Char.ofNat (48 + n) else Char.ofNat (55 + n)

/-- UTF-8 bytes of a single character (from its code point). -/
def utf8Bytes (c : Char) : List Nat :=
  let n := c.toNat
  if n < 128 then [n]
  else if n < 2048 then [192 + n / 64, 128 + n % 64]
  else if n < 65536 then [224 + n / 4096, 128 + (n / 64) % 64, 128 + n % 64]
  else [240 + n / 262144, 128 + (n / 4096) % 64, 128 + (n / 64) % 64, 128 + n % 64]

/-- Percent-encoding of one character under the form-urlencoded rules
(space becomes `+`, safe characters stay, others become `%XX` per byte). -/
def formEncodeChar (c : Char) : String :=
  if c = ' ' then "+"
  else if formSafe c then String.singleton c
  else String.join ((utf8Bytes c).map
    (fun b => String.mk ['%', hexDigit (b / 16), hexDigit (b % 16)]))

/-- Form-urlencoding of a whole string. -/
def formEncode (s : String) : String :=
  String.join (s.data.map formEncodeChar)

/-- Model of `String(new URLSearchParams(params))` for the parameter shapes
the source receives: a record serializes entry-wise with string-coerced
values; a `URLSearchParams` instance is modelled by the record of its
entries; other shapes are not exercised by the claims. -/
def urlSearchParams (params : JVal) : String :=
  match params with
  | JVal.obj l =>
    String.intercalate "&" (l.map (fun p => formEncode p.1 ++ "=" ++ formEncode (jsToString p.2)))
  | JVal.str s => s
  | _ => ""

/-- Model of `url.replace(/^(?!.*\/\/)\/?(.*)$/, baseURL + '/$1')`: a url
containing `//` anywhere is left unchanged; otherwise an optional single
leading slash is dropped and `baseURL + '/'` is prefixed.  (The dot of the
regular expression does not cross newlines; urls containing newlines are
outside the modelled behaviour, no claim exercises them.)  The dropped
leading slash lives in `stripLeadSlash`. -/
def stripLeadSlash (url : String) : String :=
  match url.data with
  | '/' :: rest => String.mk rest
  | _ => url

def applyBaseURL (base url : String) : String :=
  if strHasSub url "//" then url
  else base ++ "/" ++ stripLeadSlash url

/-- Body selection and request transforms (`src/index.js` lines 387-391):
`data = _data || options.data`, then every entry of
`options.transformRequest` (an empty list when absent) updates it by
`data = f(data, options.headers) || data`. -/
def bodyBase (options _data : JVal) : JVal :=
  jsOr _data (jsGetProp options "data")

/-- One transform application `data = f(data, options.headers) || data`. -/
def bodyStep (host : Host) (options d f : JVal) : JVal :=
  jsOr (host.call f d (jsGetProp options "headers")) d

/-- Elements of an array value (the `.map` receiver); a non-array receiver
would throw in JavaScript and is outside the modelled behaviour. -/
def jsArrElems (v : JVal) : List JVal :=
  match v with
  | JVal.arr xs => xs
  | _ => []

/-- The body after selection and all request transforms. -/
def selectBody (host : Host) (options _data : JVal) : JVal :=
  (jsArrElems (jsOr (jsGetProp options "transformRequest") (JVal.arr []))).foldl
    (fun d f => bodyStep host options d f) (bodyBase options _data)

/-- Body encoding (`src/index.js` lines 393-396): a truthy object-typed body
without a callable `append` is JSON-stringified and contributes the
auto-derived `content-type` custom header; anything else passes through. -/
def encodeBody (host : Host) (d : JVal) : JVal × List (String × JVal) :=
  if jsTruthy d && jsTypeofObject d && !(isFn (jsGetProp d "append")) then
    (JVal.str (host.stringify d), [("content-type", JVal.str "application/json")])
  else (d, [])

/-- XSRF step (`src/index.js` lines 398-400): when a document exists
(`cookie` is `some`), the ambient cookie string is matched against the
string coercion of `options.xsrfCookieName`, and on a match the custom
header named by the string coercion of `options.xsrfHeaderName` is set to
the decoded captured value. -/
def addXsrf (host : Host) (cookie : Option String) (options : JVal)
    (custom : List (String × JVal)) : List (String × JVal) :=
  match cookie with
  | none => custom
  | some cs =>
    match cookieMatch cs (jsToString (jsGetProp options "xsrfCookieName")) with
    | none => custom
    | some v =>
      setKey custom (jsToString (jsGetProp options "xsrfHeaderName"))
        (JVal.str (host.decodeURIComp v))

/-- Auth step (`src/index.js` lines 402-404). -/
def addAuth (options : JVal) (custom : List (String × JVal)) : List (String × JVal) :=
  if jsTruthy (jsGetProp options "auth") then
    setKey custom "authorization" (jsGetProp options "auth")
  else custom

/-- URL composition (`src/index.js` lines 406-416): the `baseURL` rewrite
when `options.baseURL` is truthy, then query-string appending when
`options.params` is truthy, with `&` as divider when the url already
contains `?`, and `paramsSerializer` fully replacing the default encoder
when truthy. -/
def buildFullURL (host : Host) (options : JVal) (url : String) : String :=
  let url1 :=
    if jsTruthy (jsGetProp options "baseURL") then
      applyBaseURL (jsToString (jsGetProp options "baseURL")) url
    else url
  if jsTruthy (jsGetProp options "params") then
    let divider := if strHasChar url1 '?' then "&" else "?"
    let query :=
      if jsTruthy (jsGetProp options "paramsSerializer") then
        host.serializeParams (jsGetProp options "paramsSerializer") (jsGetProp options "params")
      else urlSearchParams (jsGetProp options "params")
    url1 ++ divider ++ query
  else url1

/-- The descriptor handed to the transport by the `fetch` call
(`src/index.js` lines 420-424). -/
structure Request where
  url : String
  method : JVal
  body : JVal
  headers : JVal
  credentials : String

/-- The request-building half of `redaxios(url, config, _method, _data)`
(`src/index.js` lines 373-424, after argument normalization): merge the
defaults with the per-call config, select and transform the body, derive
the custom headers (content-type, xsrf, auth), compose the url, and merge
`options.headers` with the custom headers under case folding.  Returns the
transport descriptor together with the merged options (`none` only on merge
fuel exhaustion). -/
def redaxiosBuild (fuel : Nat) (host : Host) (defaults : JVal) (cookie : Option String)
    (urlIn : String) (config : JVal) (_method _data : JVal) : Option (Request × JVal) := do
  let options ← deepMergeF fuel defaults config false
  let enc := encodeBody host (selectBody host options _data)
  let custom3 := addAuth options (addXsrf host cookie options enc.2)
  let merged ← deepMergeF fuel (jsGetProp options "headers") (JVal.obj custom3) true
  some ({ url := buildFullURL host options urlIn
          method := jsOr _method (jsGetProp options "method")
          body := enc.1
          headers := merged
          credentials := if jsTruthy (jsGetProp options "withCredentials")
            then "include" else "same-origin" }, options)

/-- The transport response as the source observes it: the fields it reads
directly (`status`, `ok`, `body`), the remaining enumerable properties the
copy loop sees (`statusText`, `url`, `redirected`, further properties in
`extraProps`; methods are functions and are skipped by the loop), and the
body-reading methods `res[key]()`, whose promise either fulfils (`Except.ok`)
or rejects (`Except.error`). -/
structure FetchRes where
  status : Nat
  ok : Bool
  statusText : String
  resUrl : String
  redirected : Bool
  bodyStream : JVal
  extraProps : List (String × JVal)
  read : String → Except JVal JVal

/-- The property list `for (const i in res)` enumerates. -/
def forInProps (res : FetchRes) : List (String × JVal) :=
  [("status", JVal.num res.status), ("ok", JVal.bool res.ok),
   ("statusText", JVal.str res.statusText), ("url", JVal.str res.resUrl),
   ("redirected", JVal.bool res.redirected), ("body", res.bodyStream)]
    ++ res.extraProps

/-- The copy loop (`src/index.js` lines 426-428): every non-callable
enumerable property of the raw response is written onto the envelope. -/
def copyProps (env : List (String × JVal)) (props : List (String × JVal)) :
    List (String × JVal) :=
  props.foldl (fun e p => if isFn p.2 then e else setKey e p.1 p.2) env

/-- The success check (`src/index.js` line 430):
`options.validateStatus ? options.validateStatus(res.status) : res.ok`. -/
def statusOk (host : Host) (options : JVal) (res : FetchRes) : Bool :=
  if jsTruthy (jsGetProp options "validateStatus") then
    host.validate (jsGetProp options "validateStatus") res.status
  else res.ok

/-- The test `options.responseType == 'stream'` (loose equality against a
string; only a string value compares equal for the values exercised). -/
def rtIsStream (options : JVal) : Bool :=
  match jsGetProp options "responseType" with
  | JVal.str s => s == "stream"
  | _ => false

/-- The property key `options.responseType || 'text'` used for
`res[responseType || 'text']()`. -/
def readKey (options : JVal) : String :=
  jsToString (jsOr (jsGetProp options "responseType") (JVal.str "text"))

/-- The response half of the dispatch (`src/index.js` lines 425-445): build
the envelope (raw `config` plus copied response properties), compute the
success flag, return the stream body immediately for
`responseType == 'stream'` (before the success check), otherwise read the
body, set `data`, attempt the float-up `JSON.parse` on the string coercion
of the read value (a parse failure, or a rejected body read, is swallowed
by `.catch(Object)`), and finally resolve with the envelope when the check
passed and reject with the very same envelope otherwise. -/
def handleResponse (host : Host) (options config : JVal) (res : FetchRes) :
    Except JVal JVal :=
  let env0 := copyProps [("config", config)] (forInProps res)
  let ok := statusOk host options res
  if rtIsStream options then
    Except.ok (JVal.obj (setKey env0 "data" res.bodyStream))
  else
    match res.read (readKey options) with
    | Except.error _ =>
      if ok then Except.ok (JVal.obj env0) else Except.error (JVal.obj env0)
    | Except.ok d =>
      let env1 := setKey env0 "data" d
      let env2 :=
        match host.jsonParse (jsToString d) with
        | some v => setKey env1 "data" v
        | none => env1
      if ok then Except.ok (JVal.obj env2) else Except.error (JVal.obj env2)

/-- Argument normalization (`src/index.js` lines 374-377): a non-string
first argument is the config, and the url is read from it (modelled for
string `url` fields; a missing or non-string field would make the later
string operations throw). -/
def normalizeArgs (urlArg config : JVal) : String × JVal :=
  match urlArg with
  | JVal.str s => (s, config)
  | v => ((match jsGetProp v "url" with | JVal.str s => s | _ => ""), v)

/-- Full dispatch `redaxios(url, config, _method, _data)` against a supplied
transport response: argument normalization (capturing the raw per-call
config into the envelope), request building, and response handling.
Returns the transport descriptor and the settled promise outcome. -/
def redaxiosRun (fuel : Nat) (host : Host) (defaults : JVal) (cookie : Option String)
    (urlArg config _method _data : JVal) (res : FetchRes) :
    Option (Request × Except JVal JVal) := do
  let na := normalizeArgs urlArg config
  let pr ← redaxiosBuild fuel host defaults cookie na.1 na.2 _method _data
  some (pr.1, handleResponse host pr.2 na.2 res)

/-- Handler registry state of an `Interceptor` (`src/interceptor.js`): the
`handlers` array, whose slots hold a registered handler pair or `null`
(modelled `none`) after ejection.  The handler pair itself is opaque here. -/
abbrev InterceptorState (α : Type) : Type := List (Option α)

/-- Model of `use(done, error)`: push the handler, return
`handlers.length - 1`, the index of the slot just filled. -/
def interceptorUse {α : Type} (st : InterceptorState α) (h : α) :
    InterceptorState α × Nat :=
  (st ++ [some h], st.length)

/-- Model of `eject(id)`: `if (this.handlers[id]) this.handlers[id] = null` —
only a currently-registered (truthy) slot is nulled; an absent index or an
already-nulled slot leaves the array untouched. -/
def interceptorEject {α : Type} (st : InterceptorState α) (id : Nat) :
    InterceptorState α :=
  match st[id]? with
  | some (some _) => st.set id none
  | _ => st

/-- Heap-model value: like `JVal` but with compound values replaced by
references into an explicit heap, so that aliasing, mutation and freshness
are observable (used for the frame claim about `deepMerge`). -/
inductive HVal where
  | undef : HVal
  | null : HVal
  | bool : Bool → HVal
  | num : Int → HVal
  | str : String → HVal
  | fnref : Nat → HVal
  | ref : Nat → HVal
deriving DecidableEq

/-- A heap cell: a plain object (ordered property list) or an array. -/
inductive Cell where
  | objCell : List (String × HVal) → Cell
  | arrCell : List HVal → Cell
deriving DecidableEq

/-- The heap: cells addressed by list position; allocation appends. -/
abbrev Heap : Type := List Cell

/-- Lookup with the `undefined` default, heap model. -/
def getKeyDH (l : List (String × HVal)) (k : String) : HVal :=
  (getKey l k).getD HVal.undef

/-- The test `Array.isArray(v)` in the heap model. -/
def isArrayH (h : Heap) (v : HVal) : Option (List HVal) :=
  match v with
  | HVal.ref a =>
    match h[a]? with
    | some (Cell.arrCell xs) => some xs
    | _ => none
  | _ => none

/-- The test `typeof v == 'object'` in the heap model: references (objects
and arrays live on the heap) and `null`. -/
def jsTypeofObjectH (v : HVal) : Bool :=
  match v with
  | HVal.null => true
  | HVal.ref _ => true
  | _ => false

/-- Enumeration `for (i in v)` in the heap model. -/
def forInH (h : Heap) (v : HVal) : List (String × HVal) :=
  match v with
  | HVal.ref a =>
    match h[a]? with
    | some (Cell.objCell l) => l
    | some (Cell.arrCell xs) => (xs.enum).map (fun p => (toString p.1, p.2))
    | none => []
  | HVal.str s => (s.toList.enum).map (fun p => (toString p.1, HVal.str (String.singleton p.2)))
  | _ => []

/-- The `concat` argument spread in the heap model. -/
def jsConcatArgH (h : Heap) (v : HVal) : List HVal :=
  match isArrayH h v with
  | some ys => ys
  | none => [v]

/-- One step of the override loop in the heap model, threading the heap
through the recursive call (abstracted as `rec`). -/
def mergeEntryHWith (rec : Heap → HVal → HVal → Bool → Option (Heap × HVal))
    (lowerCase : Bool) (acc : Heap × List (String × HVal)) (p : String × HVal) :
    Option (Heap × List (String × HVal)) :=
  let key := foldKey lowerCase p.1
  if hasKey acc.2 key && jsTypeofObjectH p.2 then
    (rec acc.1 (getKeyDH acc.2 key) p.2 (key == "headers")).map
      (fun r => (r.1, setKey acc.2 key r.2))
  else some (acc.1, setKey acc.2 key p.2)

/-- Heap-instrumented, fuel-indexed embedding of
`deepMerge(opts, overrides, lowerCase)`: identical control flow to
`deepMergeF`, but compound values are heap references, and the result object
(`out` in the source, respectively the array built by `concat`) is allocated
as a fresh cell.  The source allocates `out` on entry and fills it by
property assignments; since `out` never escapes before the final `return`,
the model equivalently accumulates its property list and allocates the cell
on return.  No existing cell is ever written. -/
def deepMergeH : Nat → Heap → HVal → HVal → Bool → Option (Heap × HVal)
  | 0, _, _, _, _ => none
  | Nat.succ fuel, h, opts, overrides, lowerCase =>
    match isArrayH h opts with
    | some xs =>
      some (h ++ [Cell.arrCell (xs ++ jsConcatArgH h overrides)], HVal.ref h.length)
    | none =>
      ((forInH h overrides).foldlM
        (mergeEntryHWith (fun h2 a b c => deepMergeH fuel h2 a b c) lowerCase)
        ((h, lowerFoldFrom lowerCase [] (forInH h opts)) : Heap × List (String × HVal))).map
        (fun r => (r.1 ++ [Cell.objCell r.2], HVal.ref r.1.length))

/-- A concrete host instance for concrete runs: each field agrees with the
real host function on every input it is actually applied to in this file
(`jsonParse` is applied to `"123"`, a JSON document denoting the number 123,
and to `"yep"`, which is not valid JSON; `stringify` is applied to the
object literal with the single entry `a: 1`; `decodeURIComp` is applied to
strings without percent escapes; the callback tables are never consulted
because no concrete run installs callbacks). -/
def demoHost : Host where
  call := fun _ _ _ => JVal.undef
  validate := fun _ _ => false
  serializeParams := fun _ _ => "e=iamthelaw"
  stringify := fun _ => "\x7b\x22a\x22:1\x7d"
  jsonParse := fun s => if s == "123" then some (JVal.num 123) else none
  decodeURIComp := fun s => s

/-- A concrete plain-text 200 response (body reads as the non-JSON text
`yep`). -/
def demoResText : FetchRes where
  status := 200
  ok := true
  statusText := "OK"
  resUrl := "/foo"
  redirected := false
  bodyStream := JVal.obj []
  extraProps := []
  read := fun k => if k == "text" then Except.ok (JVal.str "yep") else Except.error JVal.undef

/-- A concrete 404 response whose transport flag is not ok. -/
def demoRes404 : FetchRes :=
  { demoResText with status := 404, ok := false, statusText := "Not Found" }

/-- A concrete 200 response whose `json()` read yields the string `"123"`
(the body text was the JSON document `"123"`, a JSON string). -/
def demoResJson : FetchRes :=
  { demoResText with
      read := fun k => if k == "json" then Except.ok (JVal.str "123") else Except.error JVal.undef }

/-- The concrete plain-object body used in concrete runs. -/
def demoBody5 : JVal := JVal.obj [("a", JVal.num 1)]

/-- The transport descriptor the build produces for `demoBody5` against
empty defaults and no per-call config. -/
def demoReq5 : Request where
  url := "/u"
  method := JVal.undef
  body := JVal.str "\x7b\x22a\x22:1\x7d"
  headers := JVal.obj [("content-type", JVal.str "application/json")]
  credentials := "same-origin"

/-- The `data` field of a settled promise outcome (fulfilment or rejection
value). -/
def respData (e : Except JVal JVal) : JVal :=
  match e with
  | Except.ok v => jsGetProp v "data"
  | Except.error v => jsGetProp v "data"

/-- The `config` field of a settled promise outcome. -/
def respConfig (e : Except JVal JVal) : JVal :=
  match e with
  | Except.ok v => jsGetProp v "config"
  | Except.error v => jsGetProp v "config"

/-- An ambient cookie string assembled from name/value pairs in the standard
`name=value; name=value` shape (the cookie-store boundary format). -/
def joinCookies : List (String × String) → String
  | [] => ""
  | [p] => p.1 ++ "=" ++ p.2
  | p :: rest => p.1 ++ "=" ++ p.2 ++ "; " ++ joinCookies rest

theorem getKey_cons {α : Type} (p : String × α) (rest : List (String × α)) (q : String) :
    getKey (p :: rest) q = if p.1 == q then some p.2 else getKey rest q := by
  simp only [getKey, List.find?]
  cases hp : p.1 == q <;> simp [hp]

theorem hasKey_cons {α : Type} (p : String × α) (rest : List (String × α)) (k : String) :
    hasKey (p :: rest) k = (p.1 == k || hasKey rest k) := by
  simp [hasKey]

theorem getKey_map_self {α : Type} (l : List (String × α)) (k : String) (v : α)
    (hk : hasKey l k = true) :
    getKey (l.map (fun p => if p.1 == k then (p.1, v) else p)) k = some v := by
  induction l with
  | nil => simp [hasKey] at hk
  | cons p rest ih =>
    rw [hasKey_cons] at hk
    rw [List.map_cons, getKey_cons]
    by_cases hpk : p.1 = k
    · simp [hpk]
    · have h1 : (p.1 == k) = false := by simpa using hpk
      simp only [h1, Bool.false_or] at hk
      simp only [h1, Bool.false_eq_true, if_false]
      exact ih hk

theorem getKey_map_ne {α : Type} (l : List (String × α)) (k q : String) (v : α)
    (hne : q ≠ k) :
    getKey (l.map (fun p => if p.1 == k then (p.1, v) else p)) q = getKey l q := by
  induction l with
  | nil => simp
  | cons p rest ih =>
    rw [List.map_cons, getKey_cons, getKey_cons p rest q]
    by_cases hpk : p.1 = k
    · have hpq : (p.1 == q) = false := by
        simp only [beq_eq_false_iff_ne]
        exact fun e => hne (e.symm.trans hpk)
      have h1 : (p.1 == k) = true := by simpa using hpk
      simp only [h1, if_true, hpq, Bool.false_eq_true, if_false]
      exact ih
    · have h1 : (p.1 == k) = false := by simpa using hpk
      simp only [h1, Bool.false_eq_true, if_false]
      cases hq : p.1 == q <;> simp only [Bool.false_eq_true, if_false, if_true]
      · exact ih

theorem getKey_append_hit {α : Type} (l : List (String × α)) (k : String) (v : α)
    (hk : hasKey l k = false) :
    getKey (l ++ [(k, v)]) k = some v := by
  induction l with
  | nil => simp [getKey_cons]
  | cons p rest ih =>
    rw [hasKey_cons, Bool.or_eq_false_iff] at hk
    rw [List.cons_append, getKey_cons]
    simp only [hk.1, Bool.false_eq_true, if_false]
    exact ih hk.2

theorem getKey_append_ne {α : Type} (l : List (String × α)) (k q : String) (v : α)
    (hne : q ≠ k) :
    getKey (l ++ [(k, v)]) q = getKey l q := by
  induction l with
  | nil =>
    have hkq : (k == q) = false := by
      simp only [beq_eq_false_iff_ne]
      exact fun e => hne e.symm
    simp [getKey_cons, hkq, getKey]
  | cons p rest ih =>
    rw [List.cons_append, getKey_cons, getKey_cons p rest q]
    cases hq : p.1 == q <;> simp only [Bool.false_eq_true, if_false, if_true]
    exact ih

theorem getKey_setKey_self {α : Type} (l : List (String × α)) (k : String) (v : α) :
    getKey (setKey l k v) k = some v := by
  unfold setKey
  by_cases hk : hasKey l k
  · rw [if_pos hk]; exact getKey_map_self l k v hk
  · rw [if_neg hk]
    exact getKey_append_hit l k v (Bool.not_eq_true _ ▸ hk)

theorem getKey_setKey_ne {α : Type} (l : List (String × α)) (k q : String) (v : α)
    (hne : q ≠ k) : getKey (setKey l k v) q = getKey l q := by
  unfold setKey
  by_cases hk : hasKey l k
  · rw [if_pos hk]; exact getKey_map_ne l k q v hne
  · rw [if_neg hk]; exact getKey_append_ne l k q v hne

theorem hasKey_false_getKey_none {α : Type} (l : List (String × α)) (k : String)
    (h : hasKey l k = false) : getKey l k = none := by
  induction l with
  | nil => simp [getKey]
  | cons p rest ih =>
    rw [hasKey_cons, Bool.or_eq_false_iff] at h
    rw [getKey_cons]
    simp only [h.1, Bool.false_eq_true, if_false]
    exact ih h.2

theorem keysNodup_setKey {α : Type} (l : List (String × α)) (k : String) (v : α)
    (h : (l.map Prod.fst).Nodup) : ((setKey l k v).map Prod.fst).Nodup := by
  unfold setKey
  by_cases hk : hasKey l k
  · rw [if_pos hk]
    have heq : (l.map (fun p => if p.1 == k then (p.1, v) else p)).map Prod.fst
        = l.map Prod.fst := by
      rw [List.map_map]
      apply List.map_congr_left
      intro p _
      simp only [Function.comp]
      split <;> rfl
    rw [heq]; exact h
  · rw [if_neg hk, List.map_append, List.map_cons, List.map_nil, List.nodup_append]
    refine ⟨h, List.nodup_singleton _, ?_⟩
    intro a ha hb
    simp only [List.mem_singleton] at hb
    subst hb
    obtain ⟨p, hp, hpk⟩ := List.mem_map.mp ha
    exact hk (by
      simp only [hasKey, List.any_eq_true]
      exact ⟨p, hp, by simp [hpk]⟩)

theorem filter_key_single {α : Type} (l : List (String × α)) (k : String) (v : α)
    (hnd : (l.map Prod.fst).Nodup) (hg : getKey l k = some v) :
    l.filter (fun p => p.1 == k) = [(k, v)] := by
  induction l with
  | nil => simp [getKey] at hg
  | cons p rest ih =>
    rw [List.map_cons, List.nodup_cons] at hnd
    rw [getKey_cons] at hg
    by_cases hpk : p.1 = k
    · have h1 : (p.1 == k) = true := by simpa using hpk
      rw [if_pos (by simp [h1])] at hg
      have hv : p.2 = v := by simpa using hg
      have hrest : rest.filter (fun q => q.1 == k) = [] := by
        apply List.filter_eq_nil_iff.mpr
        intro q hq hqk
        have hq1 : q.1 = k := by simpa using hqk
        exact hnd.1 (by rw [hpk, ← hq1]; exact List.mem_map_of_mem Prod.fst hq)
      have hpkv : p = (k, v) := Prod.ext hpk hv
      rw [List.filter_cons, if_pos (by simp [h1]), hrest, hpkv]
    · have h1 : (p.1 == k) = false := by simpa using hpk
      rw [if_neg (by simp [h1])] at hg
      rw [List.filter_cons, if_neg (by simp [h1])]
      exact ih hnd.2 hg

/-- Claim C10.  Interceptor registry invariant: `use(done, error)` appends a
handler and returns an id equal to the number of slots present before it
(so consecutive registrations get distinct ids); `eject(id)` nulls out
exactly the slot at `id`, leaves every other slot unchanged, and is the
identity on an id never registered or already ejected. -/
theorem c10_interceptor_registry {α : Type} (st : InterceptorState α) (h h2 : α)
    (id : Nat) :
    (interceptorUse st h).2 = st.length ∧
    (interceptorUse st h).1 = st ++ [some h] ∧
    (interceptorUse (interceptorUse st h).1 h2).2 = st.length + 1 ∧
    (∀ x, st[id]? = some (some x) → (interceptorEject st id)[id]? = some none) ∧
    (∀ q, q ≠ id → (interceptorEject st id)[q]? = st[q]?) ∧
    (st[id]? = some none → interceptorEject st id = st) ∧
    (st[id]? = none → interceptorEject st id = st) := by
  refine ⟨rfl, rfl, by simp [interceptorUse], ?_, ?_, ?_, ?_⟩
  · intro x hx
    have hlt : id < st.length := by
      by_contra hge
      simp [List.getElem?_eq_none (Nat.le_of_not_lt hge)] at hx
    simp [interceptorEject, hx, List.getElem?_set_self, hlt]
  · intro q hq
    unfold interceptorEject
    cases hx : st[id]? with
    | none => rfl
    | some s =>
      cases s with
      | none => rfl
      | some x => simp [List.getElem?_set_ne (fun e => hq e.symm)]
  · intro hx
    simp [interceptorEject, hx]
  · intro hx
    simp [interceptorEject, hx]

/-- Witness for claim C10 at a concrete registry state. -/
theorem c10_interceptor_registry_witness :
    (interceptorUse [some (5 : Nat)] 1).2 = 1 ∧
    (interceptorEject [some (5 : Nat)] 0)[0]? = some none ∧
    interceptorEject [some (5 : Nat)] 3 = [some 5] := by
  refine ⟨(c10_interceptor_registry [some 5] 1 2 0).1, ?_, ?_⟩
  · exact (c10_interceptor_registry [some 5] 1 2 0).2.2.2.1 5 rfl
  · exact (c10_interceptor_registry [some 5] 1 2 3).2.2.2.2.2.2 rfl

theorem deepMergeF_obj (fuel : Nat) (bs : List (String × JVal)) (ov : JVal) (lc : Bool) :
    deepMergeF (fuel + 1) (JVal.obj bs) ov lc
      = ((forInEntries ov).foldlM
          (mergeEntryWith (fun a b c => deepMergeF fuel a b c) lc)
          (lowerFoldFrom lc [] bs)).map JVal.obj := rfl

theorem deepMergeF_undef (fuel : Nat) (ov : JVal) (lc : Bool) :
    deepMergeF (fuel + 1) JVal.undef ov lc
      = ((forInEntries ov).foldlM
          (mergeEntryWith (fun a b c => deepMergeF fuel a b c) lc)
          []).map JVal.obj := rfl

/-- Left-biased choice on options (used to express where a merged lookup
comes from). -/
def optOr {α : Type} (a b : Option α) : Option α :=
  match a with
  | some x => some x
  | none => b

theorem getKey_setKey_split {α : Type} (acc : List (String × α)) (key k : String) (v : α) :
    getKey (setKey acc key v) k = optOr (getKey [(key, v)] k) (getKey acc k) := by
  by_cases hk : k = key
  · subst hk
    rw [getKey_setKey_self]
    simp [getKey_cons, getKey, optOr]
  · rw [getKey_setKey_ne acc key k v hk]
    have : (key == k) = false := by
      simp only [beq_eq_false_iff_ne]
      exact fun e => hk e.symm
    simp [getKey_cons, this, getKey, optOr]

theorem optOr_assoc {α : Type} (a b c : Option α) :
    optOr (optOr a b) c = optOr a (optOr b c) := by
  cases a <;> simp [optOr]

/-- Running the override loop when every override value is non-object-typed
(for instance a header map of strings): no recursion fires and the loop is
exactly the folded copy loop. -/
theorem mergeRun_nonobj (rec : JVal → JVal → Bool → Option JVal) (lowerCase : Bool)
    (os : List (String × JVal)) (acc : List (String × JVal))
    (hno : ∀ p ∈ os, jsTypeofObject p.2 = false) :
    os.foldlM (mergeEntryWith rec lowerCase) acc = some (lowerFoldFrom lowerCase acc os) := by
  induction os generalizing acc with
  | nil => rfl
  | cons p rest ih =>
    have hp : jsTypeofObject p.2 = false := hno p (List.mem_cons_self p rest)
    have hstep : mergeEntryWith rec lowerCase acc p
        = some (setKey acc (foldKey lowerCase p.1) p.2) := by
      simp [mergeEntryWith, hp]
    rw [List.foldlM_cons, hstep]
    show rest.foldlM (mergeEntryWith rec lowerCase) (setKey acc (foldKey lowerCase p.1) p.2)
        = some (lowerFoldFrom lowerCase acc (p :: rest))
    rw [ih _ (fun q hq => hno q (List.mem_cons_of_mem p hq))]
    rfl

theorem getKey_lff_split {α : Type} (lowerCase : Bool) (l : List (String × α)) :
    ∀ (acc : List (String × α)) (k : String),
      getKey (lowerFoldFrom lowerCase acc l) k
        = optOr (getKey (lowerFoldFrom lowerCase [] l) k) (getKey acc k) := by
  induction l with
  | nil => intro acc k; simp [lowerFoldFrom, optOr, getKey]
  | cons p rest ih =>
    intro acc k
    have hstep : ∀ a : List (String × α),
        lowerFoldFrom lowerCase a (p :: rest)
          = lowerFoldFrom lowerCase (setKey a (foldKey lowerCase p.1) p.2) rest := by
      intro a; rfl
    rw [hstep, hstep, ih, ih (setKey [] (foldKey lowerCase p.1) p.2)]
    rw [optOr_assoc]
    congr 1
    rw [getKey_setKey_split, getKey_setKey_split []]
    have : getKey ([] : List (String × α)) k = none := rfl
    simp [this, optOr]
    cases getKey [(foldKey lowerCase p.1, p.2)] k <;> simp [optOr]

theorem keysNodup_lff {α : Type} (lowerCase : Bool) (l : List (String × α)) :
    ∀ acc : List (String × α), (acc.map Prod.fst).Nodup →
      ((lowerFoldFrom lowerCase acc l).map Prod.fst).Nodup := by
  induction l with
  | nil => intro acc h; exact h
  | cons p rest ih =>
    intro acc h
    exact ih _ (keysNodup_setKey acc (foldKey lowerCase p.1) p.2 h)

/-- Claim C2.  Header merging is case-insensitive with last-write-wins: for
every base and override header map (string-valued, hence non-object-typed
entries) whose case-folded contents assign `"2"` and `"4"` respectively to
the folded key `x-foo`, a successful `deepMerge(base, override, true)`
produces an object with pairwise distinct keys containing exactly one
`x-foo` entry, whose value is the override value `"4"`. -/
theorem c2_header_merge_case_insensitive (bs os : List (String × JVal)) (fuel : Nat)
    (m : JVal)
    (hno : ∀ p ∈ os, jsTypeofObject p.2 = false)
    (_hbase : getKey (lowerFoldFrom true [] bs) "x-foo" = some (JVal.str "2"))
    (hover : getKey (lowerFoldFrom true [] os) "x-foo" = some (JVal.str "4"))
    (hmerge : deepMergeF fuel (JVal.obj bs) (JVal.obj os) true = some m) :
    ∃ ms, m = JVal.obj ms ∧
      ms.filter (fun p => p.1 == "x-foo") = [("x-foo", JVal.str "4")] ∧
      (ms.map Prod.fst).Nodup := by
  cases fuel with
  | zero => exact absurd hmerge (by simp [deepMergeF])
  | succ fuel =>
    rw [deepMergeF_obj] at hmerge
    simp only [forInEntries] at hmerge
    rw [mergeRun_nonobj _ true os _ hno] at hmerge
    simp only [Option.map_some'] at hmerge
    have hm := Option.some.inj hmerge
    refine ⟨lowerFoldFrom true (lowerFoldFrom true [] bs) os, hm.symm, ?_, ?_⟩
    · apply filter_key_single
      · exact keysNodup_lff true os _ (keysNodup_lff true bs [] (by simp))
      · rw [getKey_lff_split, hover]; rfl
    · exact keysNodup_lff true os _ (keysNodup_lff true bs [] (by simp))

/-- Witness for claim C2 at the concrete maps of the specification. -/
theorem c2_header_merge_case_insensitive_witness :
    ∃ ms, (JVal.obj [("x-foo", JVal.str "4")] : JVal) = JVal.obj ms ∧
      ms.filter (fun p => p.1 == "x-foo") = [("x-foo", JVal.str "4")] ∧
      (ms.map Prod.fst).Nodup := by
  apply c2_header_merge_case_insensitive [("x-foo", JVal.str "2")] [("X-Foo", JVal.str "4")] 2
  · intro p hp
    simp only [List.mem_singleton] at hp
    subst hp
    rfl
  · rfl
  · rfl
  · rfl

theorem deepMergeH_obj_run (fuel : Nat) (h : Heap) (opts overrides : HVal) (lc : Bool)
    (hnoarr : isArrayH h opts = none) :
    deepMergeH (fuel + 1) h opts overrides lc
      = ((forInH h overrides).foldlM
          (mergeEntryHWith (fun h2 a b c => deepMergeH fuel h2 a b c) lc)
          ((h, lowerFoldFrom lc [] (forInH h opts)) : Heap × List (String × HVal))).map
          (fun r => (r.1 ++ [Cell.objCell r.2], HVal.ref r.1.length)) := by
  rw [deepMergeH, hnoarr]

theorem mergeRunH_frame (fuel : Nat) (lc : Bool)
    (IH : ∀ (h : Heap) (o v : HVal) (c : Bool) (h2 : Heap) (r : HVal),
      deepMergeH fuel h o v c = some (h2, r) → h <+: h2)
    (entries : List (String × HVal)) :
    ∀ (acc : Heap × List (String × HVal)) (res : Heap × List (String × HVal)),
      entries.foldlM (mergeEntryHWith (fun h2 a b c => deepMergeH fuel h2 a b c) lc) acc
        = some res → acc.1 <+: res.1 := by
  induction entries with
  | nil =>
    intro acc res hrun
    have : acc = res := by simpa using hrun
    rw [this]
  | cons p rest ih =>
    intro acc res hrun
    rw [List.foldlM_cons] at hrun
    cases hstep : mergeEntryHWith (fun h2 a b c => deepMergeH fuel h2 a b c) lc acc p with
    | none => rw [hstep] at hrun; exact absurd hrun (by simp)
    | some acc2 =>
      rw [hstep] at hrun
      have hrest : rest.foldlM
          (mergeEntryHWith (fun h2 a b c => deepMergeH fuel h2 a b c) lc) acc2 = some res :=
        hrun
      have h12 : acc.1 <+: acc2.1 := by
        unfold mergeEntryHWith at hstep
        beta_reduce at hstep
        by_cases hc : hasKey acc.2 (foldKey lc p.1) && jsTypeofObjectH p.2
        · rw [if_pos hc] at hstep
          cases hrec : deepMergeH fuel acc.1 (getKeyDH acc.2 (foldKey lc p.1)) p.2
              (foldKey lc p.1 == "headers") with
          | none => rw [hrec] at hstep; exact absurd hstep (by simp)
          | some r2 =>
            rw [hrec] at hstep
            have : acc2 = (r2.1, setKey acc.2 (foldKey lc p.1) r2.2) := by
              simpa using hstep.symm
            rw [this]
            exact IH acc.1 _ p.2 _ r2.1 r2.2 (by rw [hrec])
        · rw [if_neg hc] at hstep
          have : acc2 = (acc.1, setKey acc.2 (foldKey lc p.1) p.2) := by
            simpa using hstep.symm
          rw [this]
      exact h12.trans (ih acc2 res hrest)

theorem deepMergeH_frame (fuel : Nat) :
    ∀ (h : Heap) (opts overrides : HVal) (lc : Bool) (h2 : Heap) (r : HVal),
      deepMergeH fuel h opts overrides lc = some (h2, r) →
      h <+: h2 ∧ ∃ n, r = HVal.ref n ∧ h.length ≤ n ∧ n < h2.length := by
  induction fuel with
  | zero => intro h o v lc h2 r hrun; exact absurd hrun (by simp [deepMergeH])
  | succ fuel ih =>
    intro h o v lc h2 r hrun
    cases harr : isArrayH h o with
    | some xs =>
      rw [deepMergeH, harr] at hrun
      simp only [Option.some.injEq, Prod.mk.injEq] at hrun
      obtain ⟨hh, hr⟩ := hrun
      subst hh; subst hr
      refine ⟨List.prefix_append h _, h.length, rfl, Nat.le_refl _, ?_⟩
      simp
    | none =>
      rw [deepMergeH_obj_run fuel h o v lc harr] at hrun
      cases hfold : (forInH h v).foldlM
          (mergeEntryHWith (fun h2 a b c => deepMergeH fuel h2 a b c) lc)
          ((h, lowerFoldFrom lc [] (forInH h o)) : Heap × List (String × HVal)) with
      | none => rw [hfold] at hrun; exact absurd hrun (by simp)
      | some res =>
        rw [hfold] at hrun
        simp only [Option.map_some', Option.some.injEq, Prod.mk.injEq] at hrun
        obtain ⟨hh, hr⟩ := hrun
        subst hh; subst hr
        have hpre : h <+: res.1 :=
          mergeRunH_frame fuel lc (fun a b c d e f hx => (ih a b c d e f hx).1)
            (forInH h v) (h, lowerFoldFrom lc [] (forInH h o)) res hfold
        refine ⟨hpre.trans (List.prefix_append res.1 _), res.1.length, rfl,
          hpre.length_le, ?_⟩
        simp

/-- Claim C3.  The dispatch of `deepMerge(base, override, flag)` on two heap
objects never changes any existing heap cell (so no key of either argument,
at any nesting depth, is added, removed or rewritten), and the returned
value is a reference to a freshly allocated cell, in particular distinct
from both inputs. -/
theorem c3_deepMerge_frame_fresh (fuel : Nat) (h : Heap) (a b : Nat) (lc : Bool)
    (h2 : Heap) (r : HVal) (ha : a < h.length) (hb : b < h.length)
    (hrun : deepMergeH fuel h (HVal.ref a) (HVal.ref b) lc = some (h2, r)) :
    (∀ i, i < h.length → h2[i]? = h[i]?) ∧
    (∃ n, r = HVal.ref n ∧ h.length ≤ n) ∧ r ≠ HVal.ref a ∧ r ≠ HVal.ref b := by
  obtain ⟨hpre, n, hr, hn, _⟩ := deepMergeH_frame fuel h (HVal.ref a) (HVal.ref b) lc h2 r hrun
  obtain ⟨t, ht⟩ := hpre
  refine ⟨?_, ⟨n, hr, hn⟩, ?_, ?_⟩
  · intro i hi
    rw [← ht]
    exact List.getElem?_append_left hi
  · rw [hr]
    intro e
    have : n = a := by injection e
    omega
  · rw [hr]
    intro e
    have : n = b := by injection e
    omega

/-- Witness for claim C3 on a concrete two-object heap. -/
theorem c3_deepMerge_frame_fresh_witness :
    ([Cell.objCell [("x", HVal.str "1")], Cell.objCell [("x", HVal.str "2")],
      Cell.objCell [("x", HVal.str "2")]] : Heap)[0]?
      = ([Cell.objCell [("x", HVal.str "1")], Cell.objCell [("x", HVal.str "2")]] : Heap)[0]? ∧
    ([Cell.objCell [("x", HVal.str "1")], Cell.objCell [("x", HVal.str "2")],
      Cell.objCell [("x", HVal.str "2")]] : Heap)[1]?
      = ([Cell.objCell [("x", HVal.str "1")], Cell.objCell [("x", HVal.str "2")]] : Heap)[1]? ∧
    HVal.ref 2 ≠ HVal.ref 0 ∧ HVal.ref 2 ≠ HVal.ref 1 := by
  have := c3_deepMerge_frame_fresh 3
    [Cell.objCell [("x", HVal.str "1")], Cell.objCell [("x", HVal.str "2")]] 0 1 false
    [Cell.objCell [("x", HVal.str "1")], Cell.objCell [("x", HVal.str "2")],
     Cell.objCell [("x", HVal.str "2")]] (HVal.ref 2)
    (by decide) (by decide) rfl
  exact ⟨this.1 0 (by decide), this.1 1 (by decide), this.2.2.1, this.2.2.2⟩

theorem copyProps_getKey_ne (props : List (String × JVal)) :
    ∀ (env : List (String × JVal)) (k : String), (∀ p ∈ props, p.1 ≠ k) →
      getKey (copyProps env props) k = getKey env k := by
  induction props with
  | nil => intro env k _; rfl
  | cons p rest ih =>
    intro env k hk
    have hstep : copyProps env (p :: rest)
        = copyProps (if isFn p.2 then env else setKey env p.1 p.2) rest := by
      simp [copyProps]
    rw [hstep, ih _ k (fun q hq => hk q (List.mem_cons_of_mem p hq))]
    by_cases hf : isFn p.2
    · rw [if_pos hf]
    · rw [if_neg hf]
      exact getKey_setKey_ne env p.1 k p.2 (fun e => hk p (List.mem_cons_self p rest) e.symm)

theorem env_status (cfg : JVal) (res : FetchRes)
    (hx : ∀ p ∈ res.extraProps, p.1 ≠ "status") :
    getKey (copyProps [("config", cfg)] (forInProps res)) "status"
      = some (JVal.num res.status) := by
  have hstep : copyProps [("config", cfg)] (forInProps res)
      = copyProps (setKey [("config", cfg)] "status" (JVal.num res.status))
          ([("ok", JVal.bool res.ok), ("statusText", JVal.str res.statusText),
            ("url", JVal.str res.resUrl), ("redirected", JVal.bool res.redirected),
            ("body", res.bodyStream)] ++ res.extraProps) := rfl
  rw [hstep, copyProps_getKey_ne]
  · exact getKey_setKey_self _ _ _
  · intro p hp
    rw [List.mem_append] at hp
    cases hp with
    | inl h5 =>
      fin_cases h5 <;> simp
    | inr hext => exact hx p hext

/-- Claim C1 (amended).  For every dispatched request whose status fails the
success check (`validateStatus(status)` when supplied, else the transport
ok flag) and whose responseType is not `stream`, the promise rejects and
the rejection value is the response envelope, carrying the response status;
for responseType `stream` the promise instead resolves with the envelope
regardless of the success check (the stream branch returns before the
check). -/
theorem c1_failed_status_rejects_envelope (host : Host) (options cfg : JVal)
    (res : FetchRes) (hx : ∀ p ∈ res.extraProps, p.1 ≠ "status") :
    (rtIsStream options = false → statusOk host options res = false →
      ∃ env, handleResponse host options cfg res = Except.error (JVal.obj env) ∧
        getKey env "status" = some (JVal.num res.status)) ∧
    (rtIsStream options = true →
      ∃ env, handleResponse host options cfg res = Except.ok (JVal.obj env) ∧
        getKey env "status" = some (JVal.num res.status)) := by
  have hs := env_status cfg res hx
  constructor
  · intro hns hok
    rw [handleResponse]
    simp only [hns, Bool.false_eq_true, if_false, hok]
    cases hread : res.read (readKey options) with
    | error e =>
      exact ⟨_, rfl, hs⟩
    | ok d =>
      cases hparse : host.jsonParse (jsToString d) with
      | none =>
        refine ⟨_, rfl, ?_⟩
        rw [hparse]
        rw [getKey_setKey_ne _ _ _ _ (by decide)]
        exact hs
      | some v =>
        refine ⟨_, rfl, ?_⟩
        rw [hparse]
        rw [getKey_setKey_ne _ _ _ _ (by decide), getKey_setKey_ne _ _ _ _ (by decide)]
        exact hs
  · intro hstr
    rw [handleResponse]
    simp only [hstr, if_true]
    refine ⟨_, rfl, ?_⟩
    rw [getKey_setKey_ne _ _ _ _ (by decide)]
    exact hs

/-- Witness for claim C1: a 404 with the default success check and default
responseType rejects, and the rejection envelope carries status 404. -/
theorem c1_failed_status_rejects_envelope_witness :
    ∃ env, handleResponse demoHost (JVal.obj []) JVal.undef demoRes404
        = Except.error (JVal.obj env) ∧
      getKey env "status" = some (JVal.num demoRes404.status) :=
  (c1_failed_status_rejects_envelope demoHost (JVal.obj []) JVal.undef demoRes404
    (by intro p hp; simp [demoRes404, demoResText] at hp)).1 rfl rfl

/-- Counterexample to claim C1 as stated: with responseType `stream` and a
404 response failing the default success check, the promise resolves (the
result of the dispatch is a fulfilled promise, not a rejection), contrary
to the claim that the promise rejects for every responseType including
`stream`. -/
theorem c1_counterexample_stream_resolves :
    (redaxiosRun 9 demoHost (JVal.obj []) none (JVal.str "/x")
        (JVal.obj [("responseType", JVal.str "stream")]) JVal.undef JVal.undef
        demoRes404).map (fun p => p.2.isOk) = some true := rfl

theorem redaxiosBuild_eq (fuel : Nat) (host : Host) (defaults : JVal)
    (cookie : Option String) (urlIn : String) (config _method _data : JVal)
    (req : Request) (opts : JVal)
    (h : redaxiosBuild fuel host defaults cookie urlIn config _method _data
      = some (req, opts)) :
    deepMergeF fuel defaults config false = some opts ∧
    ∃ merged,
      deepMergeF fuel (jsGetProp opts "headers")
        (JVal.obj (addAuth opts (addXsrf host cookie opts
          (encodeBody host (selectBody host opts _data)).2))) true = some merged ∧
      req = { url := buildFullURL host opts urlIn
              method := jsOr _method (jsGetProp opts "method")
              body := (encodeBody host (selectBody host opts _data)).1
              headers := merged
              credentials := if jsTruthy (jsGetProp opts "withCredentials")
                then "include" else "same-origin" } := by
  cases hm : deepMergeF fuel defaults config false with
  | none =>
    rw [redaxiosBuild, hm] at h
    exact absurd h (by simp)
  | some o =>
    rw [redaxiosBuild, hm] at h
    have h2 : (deepMergeF fuel (jsGetProp o "headers")
        (JVal.obj (addAuth o (addXsrf host cookie o
          (encodeBody host (selectBody host o _data)).2))) true >>= fun merged =>
        some (({ url := buildFullURL host o urlIn
                 method := jsOr _method (jsGetProp o "method")
                 body := (encodeBody host (selectBody host o _data)).1
                 headers := merged
                 credentials := if jsTruthy (jsGetProp o "withCredentials")
                   then "include" else "same-origin" } : Request), o)) = some (req, opts) := h
    cases hm2 : deepMergeF fuel (jsGetProp o "headers")
        (JVal.obj (addAuth o (addXsrf host cookie o
          (encodeBody host (selectBody host o _data)).2))) true with
    | none =>
      rw [hm2] at h2
      exact absurd h2 (by simp)
    | some m =>
      rw [hm2] at h2
      have h3 : (({ url := buildFullURL host o urlIn
                    method := jsOr _method (jsGetProp o "method")
                    body := (encodeBody host (selectBody host o _data)).1
                    headers := m
                    credentials := if jsTruthy (jsGetProp o "withCredentials")
                      then "include" else "same-origin" } : Request), o)
          = (req, opts) := Option.some.inj h2
      have hpair := Prod.ext_iff.mp h3
      have hreq := hpair.1.symm
      have hopts : o = opts := hpair.2
      subst hopts
      exact ⟨rfl, m, hm2, hreq⟩

/-- Claim C4 (amended).  Body selection and transforms go by truthiness, not
by an undefined test: the outgoing body starts as `bodyOverride` exactly
when `bodyOverride` is truthy (any falsy override, including the empty
string or 0, falls back to `mergedConfig.data`, per
`data = _data || options.data`), and a transform return value replaces the
body exactly when it is truthy (per `data = f(data, headers) || data`); for
a build without transforms and a non-object selected body, the request body
equals that selected value. -/
theorem c4_body_selection_truthiness (host : Host) (options _data d f : JVal) :
    (jsTruthy _data = true → bodyBase options _data = _data) ∧
    (jsTruthy _data = false → bodyBase options _data = jsGetProp options "data") ∧
    (jsTruthy (host.call f d (jsGetProp options "headers")) = true →
      bodyStep host options d f = host.call f d (jsGetProp options "headers")) ∧
    (jsTruthy (host.call f d (jsGetProp options "headers")) = false →
      bodyStep host options d f = d) ∧
    (∀ fuel defaults cookie urlIn config _method req opts,
      redaxiosBuild fuel host defaults cookie urlIn config _method _data
        = some (req, opts) →
      jsGetProp opts "transformRequest" = JVal.undef →
      jsTypeofObject (bodyBase opts _data) = false →
      req.body = bodyBase opts _data) := by
  refine ⟨?_, ?_, ?_, ?_, ?_⟩
  · intro ht; rw [bodyBase, jsOr, if_pos ht]
  · intro hf; rw [bodyBase, jsOr, if_neg (by simp [hf])]
  · intro ht; rw [bodyStep, jsOr, if_pos ht]
  · intro hf; rw [bodyStep, jsOr, if_neg (by simp [hf])]
  · intro fuel defaults cookie urlIn config _method req opts hbuild htr hobj
    obtain ⟨_, merged, _, hreq⟩ :=
      redaxiosBuild_eq fuel host defaults cookie urlIn config _method _data req opts hbuild
    have hsel : selectBody host opts _data = bodyBase opts _data := by
      rw [selectBody, htr]; rfl
    rw [hreq]
    show (encodeBody host (selectBody host opts _data)).1 = bodyBase opts _data
    rw [hsel, encodeBody]
    rw [if_neg (by simp [hobj])]

/-- Witness for claim C4: a falsy override (the empty string) falls back to
the merged data option. -/
theorem c4_body_selection_truthiness_witness :
    bodyBase (JVal.obj [("data", JVal.str "x")]) (JVal.str "")
        = jsGetProp (JVal.obj [("data", JVal.str "x")]) "data" ∧
    bodyStep demoHost (JVal.obj []) (JVal.str "keep") (JVal.fnref 0)
        = JVal.str "keep" := by
  refine ⟨?_, ?_⟩
  · exact (c4_body_selection_truthiness demoHost (JVal.obj [("data", JVal.str "x")])
      (JVal.str "") JVal.undef JVal.undef).2.1 rfl
  · exact (c4_body_selection_truthiness demoHost (JVal.obj []) JVal.undef
      (JVal.str "keep") (JVal.fnref 0)).2.2.2.1 rfl

/-- Counterexample to claim C4 as stated: the claim says the outgoing body
starts as `bodyOverride` whenever it is not undefined, so with override
`""` (the empty string) and merged data `"x"` the body should be `""`; the
code uses `_data || options.data`, and the built request body is `"x"`. -/
theorem c4_counterexample_falsy_override_ignored :
    (redaxiosBuild 9 demoHost (JVal.obj []) none "/u"
        (JVal.obj [("data", JVal.str "x")]) JVal.undef (JVal.str "")).map
      (fun p => p.1.body) = some (JVal.str "x") := rfl

theorem deepMergeF_notArr (fuel : Nat) (opts ov : JVal) (lc : Bool)
    (h : ∀ xs, opts ≠ JVal.arr xs) :
    deepMergeF (fuel + 1) opts ov lc
      = ((forInEntries ov).foldlM
          (mergeEntryWith (fun a b c => deepMergeF fuel a b c) lc)
          (lowerFoldFrom lc [] (forInEntries opts))).map JVal.obj := by
  cases opts with
  | arr xs => exact absurd rfl (h xs)
  | undef => rfl
  | null => rfl
  | bool b => rfl
  | num n => rfl
  | str s => rfl
  | obj l => rfl
  | fnref n => rfl

/-- Claim C5 (amended).  A truthy object-typed body without a callable
`append` is JSON-stringified and the auto-derived
`content-type: application/json` custom header is applied as the merge
override, so it is present in the outgoing headers even when the merged
config already carries an explicit content-type (the auto-derived header
wins, since `deepMerge(options.headers, customHeaders, true)` writes the
custom headers last); a FormData-like body (callable `append`) passes
through unmodified, no auto content-type is derived, and the outgoing
headers are exactly the case-folded config headers. -/
theorem c5_json_body_content_type (fuel : Nat) (host : Host) (defaults : JVal)
    (urlIn : String) (config _method _data : JVal) (req : Request) (opts : JVal)
    (hbuild : redaxiosBuild fuel host defaults none urlIn config _method _data
      = some (req, opts))
    (hauth : jsTruthy (jsGetProp opts "auth") = false)
    (hhdr : ∀ xs, jsGetProp opts "headers" ≠ JVal.arr xs) :
    (jsTruthy (selectBody host opts _data) = true →
     jsTypeofObject (selectBody host opts _data) = true →
     isFn (jsGetProp (selectBody host opts _data) "append") = false →
      req.body = JVal.str (host.stringify (selectBody host opts _data)) ∧
      jsGetProp req.headers "content-type" = JVal.str "application/json") ∧
    (isFn (jsGetProp (selectBody host opts _data) "append") = true →
      req.body = selectBody host opts _data ∧
      req.headers = JVal.obj (lowerFoldFrom true []
        (forInEntries (jsGetProp opts "headers")))) := by
  obtain ⟨hm, merged, hm2, hreq⟩ :=
    redaxiosBuild_eq fuel host defaults none urlIn config _method _data req opts hbuild
  constructor
  · intro ht hobj hap
    have henc : encodeBody host (selectBody host opts _data)
        = (JVal.str (host.stringify (selectBody host opts _data)),
           [("content-type", JVal.str "application/json")]) := by
      rw [encodeBody, if_pos (by rw [ht, hobj, hap]; rfl)]
    rw [henc] at hm2 hreq
    have hcustom : addAuth opts (addXsrf host none opts
        [("content-type", JVal.str "application/json")])
        = [("content-type", JVal.str "application/json")] := by
      rw [addXsrf, addAuth, if_neg (by simp [hauth])]
    rw [hcustom] at hm2
    cases fuel with
    | zero => exact absurd hm2 (by simp [deepMergeF])
    | succ fuel =>
      rw [deepMergeF_notArr fuel _ _ true hhdr] at hm2
      rw [show forInEntries (JVal.obj [("content-type", JVal.str "application/json")])
          = [("content-type", JVal.str "application/json")] from rfl] at hm2
      rw [mergeRun_nonobj _ true _ _ (by intro p hp; simp at hp; rw [hp]; rfl)] at hm2
      have hmg : merged = JVal.obj (setKey
          (lowerFoldFrom true [] (forInEntries (jsGetProp opts "headers")))
          "content-type" (JVal.str "application/json")) := by
        have := Option.some.inj hm2
        rw [← this]
        rfl
      refine ⟨by rw [hreq], ?_⟩
      rw [hreq]
      show jsGetProp merged "content-type" = JVal.str "application/json"
      rw [hmg]
      show getKeyD _ "content-type" = JVal.str "application/json"
      rw [getKeyD, getKey_setKey_self]
      rfl
  · intro hap
    have henc : encodeBody host (selectBody host opts _data)
        = (selectBody host opts _data, []) := by
      rw [encodeBody, if_neg (by rw [hap]; simp)]
    rw [henc] at hm2 hreq
    have hcustom : addAuth opts (addXsrf host none opts []) = [] := by
      rw [addXsrf, addAuth, if_neg (by simp [hauth])]
    rw [hcustom] at hm2
    cases fuel with
    | zero => exact absurd hm2 (by simp [deepMergeF])
    | succ fuel =>
      rw [deepMergeF_notArr fuel _ _ true hhdr] at hm2
      rw [show forInEntries (JVal.obj []) = [] from rfl] at hm2
      have hmg := Option.some.inj hm2
      exact ⟨by rw [hreq], by rw [hreq]; exact hmg.symm⟩

/-- Witness for claim C5: a plain-object body against empty defaults is
stringified and the built request carries `content-type: application/json`.
-/
theorem c5_json_body_content_type_witness :
    demoReq5.body = JVal.str (demoHost.stringify (selectBody demoHost (JVal.obj []) demoBody5)) ∧
    jsGetProp demoReq5.headers "content-type" = JVal.str "application/json" :=
  (c5_json_body_content_type 2 demoHost (JVal.obj []) "/u" JVal.undef JVal.undef
    demoBody5 demoReq5 (JVal.obj []) rfl rfl
    (by intro xs h; exact JVal.noConfusion h)).1 rfl rfl rfl

/-- Counterexample to claim C5 as stated: with an explicit
`content-type: text/plain` in the config headers and a plain-object body,
the claim says the explicit value is forwarded unchanged; the built request
instead carries the auto-derived `content-type: application/json` (the
custom headers are merged after the config headers). -/
theorem c5_counterexample_explicit_content_type_clobbered :
    (redaxiosBuild 9 demoHost (JVal.obj []) none "/u"
        (JVal.obj [("headers", JVal.obj [("content-type", JVal.str "text/plain")])])
        JVal.undef demoBody5).map (fun p => jsGetProp p.1.headers "content-type")
      = some (JVal.str "application/json") := rfl

/-- Claim C6 (amended).  URL composition: a url already containing `//` is
left unprefixed; otherwise the composed url is `baseURL`, exactly one
separating `/`, and the url with its single optional leading slash removed
(the remainder never starts with another slash, so a double slash can only
arise at the join from a baseURL that itself ends in `/`); then a truthy
`params` appends its serialization, produced by `paramsSerializer` alone
when supplied and by the default query encoder otherwise, behind `&` when
the url already contains `?` and behind `?` otherwise. -/
theorem c6_url_composition (host : Host) (options : JVal) (url b : String) :
    (strHasSub url "//" = true → applyBaseURL b url = url) ∧
    (strHasSub url "//" = false →
      applyBaseURL b url = b ++ "/" ++ stripLeadSlash url) ∧
    (strHasSub url "//" = false → (stripLeadSlash url).data.head? ≠ some '/') ∧
    applyBaseURL "http://foo" "/bar" = "http://foo/bar" ∧
    applyBaseURL "/foo" "/bar" = "/foo/bar" ∧
    (jsTruthy (jsGetProp options "baseURL") = false →
     jsTruthy (jsGetProp options "params") = true →
     jsTruthy (jsGetProp options "paramsSerializer") = true →
      buildFullURL host options url
        = url ++ (if strHasChar url '?' then "&" else "?")
            ++ host.serializeParams (jsGetProp options "paramsSerializer")
                (jsGetProp options "params")) ∧
    (jsTruthy (jsGetProp options "baseURL") = false →
     jsTruthy (jsGetProp options "params") = true →
     jsTruthy (jsGetProp options "paramsSerializer") = false →
      buildFullURL host options url
        = url ++ (if strHasChar url '?' then "&" else "?")
            ++ urlSearchParams (jsGetProp options "params")) ∧
    buildFullURL host
      (JVal.obj [("params", JVal.obj [("a", JVal.num 1), ("b", JVal.bool true)])])
      "/foo" = "/foo?a=1&b=true" ∧
    buildFullURL host
      (JVal.obj [("params", JVal.obj [("a", JVal.num 1), ("b", JVal.bool true)])])
      "/foo?c=42" = "/foo?c=42&a=1&b=true" := by
  refine ⟨?_, ?_, ?_, rfl, rfl, ?_, ?_, rfl, rfl⟩
  · intro h; rw [applyBaseURL, if_pos h]
  · intro h; rw [applyBaseURL, if_neg (by simp [h])]
  · intro h
    cases hd : url.data with
    | nil =>
      have hs : stripLeadSlash url = url := by
        rw [stripLeadSlash, hd]
      rw [hs, hd]
      simp
    | cons c rest =>
      by_cases hc : c = '/'
      · subst hc
        have hs : stripLeadSlash url = String.mk rest := by
          rw [stripLeadSlash, hd]
          rfl
        rw [hs]
        cases rest with
        | nil => simp
        | cons c2 rest2 =>
          by_cases hc2 : c2 = '/'
          · subst hc2
            have htrue : strHasSub url "//" = true := by
              rw [strHasSub, hd]
              show containsSeq ('/' :: '/' :: rest2) ['/', '/'] = true
              rw [containsSeq]
              simp [List.isPrefixOf]
            rw [htrue] at h
            exact absurd h (by simp)
          · simpa using hc2
      · have hs : stripLeadSlash url = url := by
          rw [stripLeadSlash, hd]
          split
          · rename_i r heq
            injection heq with h1 _
            exact absurd h1 hc
          · rfl
        rw [hs, hd]
        simpa using hc
  · intro hb hp hs
    rw [buildFullURL]
    simp only [hb, Bool.false_eq_true, if_false, hp, if_true, hs]
  · intro hb hp hs
    rw [buildFullURL]
    simp only [hb, Bool.false_eq_true, if_false, hp, if_true, hs]

/-- Witness for claim C6: composing `/foo` with `/bar` uses the join
formula, and the two query-string examples of the specification hold. -/
theorem c6_url_composition_witness :
    applyBaseURL "/foo" "/bar" = "/foo" ++ "/" ++ stripLeadSlash "/bar" ∧
    buildFullURL demoHost
      (JVal.obj [("params", JVal.obj [("a", JVal.num 1), ("b", JVal.bool true)])])
      "/foo?c=42" = "/foo?c=42&a=1&b=true" := by
  refine ⟨?_, ?_⟩
  · exact (c6_url_composition demoHost (JVal.obj []) "/bar" "/foo").2.1 rfl
  · exact (c6_url_composition demoHost (JVal.obj []) "/x" "/y").2.2.2.2.2.2.2.2

/-- Counterexample to claim C6 as stated: the claim promises no double
slash for every baseURL, but a baseURL ending in `/` produces one at the
join (`baseURL: "/foo/"` with url `/bar`, which contains no `//`, composes
to `/foo//bar`). -/
theorem c6_counterexample_double_slash :
    buildFullURL demoHost (JVal.obj [("baseURL", JVal.str "/foo/")]) "/bar"
        = "/foo//bar" ∧
    strHasSub "/bar" "//" = false ∧
    strHasSub "/foo//bar" "//" = true := ⟨rfl, rfl, rfl⟩

theorem respData_settle (ok : Bool) (env : List (String × JVal)) :
    respData (if ok then Except.ok (JVal.obj env) else Except.error (JVal.obj env))
      = getKeyD env "data" := by
  cases ok <;> rfl

/-- Claim C7 (amended).  For every non-stream responseType (not only the
default/text path) the read result is additionally JSON-parsed through its
string coercion: when the parse succeeds, `data` is the parsed value; when
it fails, `data` silently keeps the read result and the call still resolves
whenever the success check passes; the read key defaults to `text` when no
responseType is set. -/
theorem c7_json_parse_float_up (host : Host) (options cfg : JVal) (res : FetchRes) :
    (jsTruthy (jsGetProp options "responseType") = false → readKey options = "text") ∧
    (rtIsStream options = false →
      ∀ d v, res.read (readKey options) = Except.ok d →
        host.jsonParse (jsToString d) = some v →
        respData (handleResponse host options cfg res) = v) ∧
    (rtIsStream options = false →
      ∀ d, res.read (readKey options) = Except.ok d →
        host.jsonParse (jsToString d) = none →
        respData (handleResponse host options cfg res) = d ∧
        (statusOk host options res = true →
          (handleResponse host options cfg res).isOk = true)) := by
  refine ⟨?_, ?_, ?_⟩
  · intro hf
    rw [readKey, jsOr, if_neg (by simp [hf])]
    rfl
  · intro hns d v hread hparse
    rw [handleResponse]
    simp only [hns, Bool.false_eq_true, if_false, hread, hparse]
    rw [respData_settle]
    rw [getKeyD, getKey_setKey_self]
    rfl
  · intro hns d hread hparse
    rw [handleResponse]
    simp only [hns, Bool.false_eq_true, if_false, hread, hparse]
    constructor
    · rw [respData_settle, getKeyD, getKey_setKey_self]
      rfl
    · intro hok
      rw [hok]
      rfl

/-- Witness for claim C7: a default-options fetch of a non-JSON text body
keeps the raw string and resolves. -/
theorem c7_json_parse_float_up_witness :
    readKey (JVal.obj []) = "text" ∧
    respData (handleResponse demoHost (JVal.obj []) JVal.undef demoResText)
      = JVal.str "yep" ∧
    (handleResponse demoHost (JVal.obj []) JVal.undef demoResText).isOk = true := by
  have h := c7_json_parse_float_up demoHost (JVal.obj []) JVal.undef demoResText
  exact ⟨h.1 rfl, (h.2.2 rfl (JVal.str "yep") rfl rfl).1,
    (h.2.2 rfl (JVal.str "yep") rfl rfl).2 rfl⟩

/-- Counterexample to claim C7 as stated: the claim restricts the float-up
JSON parse to the default/text path, but with `responseType: 'json'` and a
body whose `json()` read yields the string `"123"`, the envelope data is
the re-parsed number 123, not the read result. -/
theorem c7_counterexample_double_parse :
    (redaxiosRun 9 demoHost (JVal.obj []) none (JVal.str "/j")
        (JVal.obj [("responseType", JVal.str "json")]) JVal.undef JVal.undef
        demoResJson).map (fun p => respData p.2) = some (JVal.num 123) ∧
    demoResJson.read (readKey (JVal.obj [("responseType", JVal.str "json")]))
      = Except.ok (JVal.str "123") := ⟨rfl, rfl⟩

theorem env_config (cfg : JVal) (res : FetchRes)
    (hx : ∀ p ∈ res.extraProps, p.1 ≠ "config") :
    getKey (copyProps [("config", cfg)] (forInProps res)) "config" = some cfg := by
  rw [copyProps_getKey_ne]
  · rfl
  · intro p hp
    rw [forInProps, List.mem_append] at hp
    cases hp with
    | inl h6 => fin_cases h6 <;> simp
    | inr hext => exact hx p hext

theorem respConfig_settle (ok : Bool) (env : List (String × JVal)) :
    respConfig (if ok then Except.ok (JVal.obj env) else Except.error (JVal.obj env))
      = getKeyD env "config" := by
  cases ok <;> rfl

/-- Claim C8 (amended).  The envelope `config` field is the raw per-call
configuration captured before merging (`response = { config }` precedes the
merge): the settled outcome always carries back exactly the `config`
argument, and a dispatch whose first argument is a url string carries back
the raw second argument — `undefined`, in particular, for a url-only call —
not the merge of the defaults with it. -/
theorem c8_envelope_config_raw (host : Host) (res : FetchRes)
    (hx : ∀ p ∈ res.extraProps, p.1 ≠ "config") :
    (∀ options cfg, respConfig (handleResponse host options cfg res) = cfg) ∧
    (∀ fuel defaults urlStr config _method _data req e,
      redaxiosRun fuel host defaults none (JVal.str urlStr) config _method _data res
        = some (req, e) → respConfig e = config) := by
  have hmain : ∀ options cfg, respConfig (handleResponse host options cfg res) = cfg := by
    intro options cfg
    have hc := env_config cfg res hx
    rw [handleResponse]
    cases hstr : rtIsStream options with
    | true =>
      simp only [if_true]
      show getKeyD (setKey (copyProps [("config", cfg)] (forInProps res))
        "data" res.bodyStream) "config" = cfg
      rw [getKeyD, getKey_setKey_ne _ _ _ _ (by decide), hc]
      rfl
    | false =>
      simp only [Bool.false_eq_true, if_false]
      cases hread : res.read (readKey options) with
      | error e =>
        rw [respConfig_settle, getKeyD, hc]
        rfl
      | ok d =>
        rw [respConfig_settle]
        cases hparse : host.jsonParse (jsToString d) with
        | none =>
          show getKeyD (setKey (copyProps [("config", cfg)] (forInProps res)) "data" d)
            "config" = cfg
          rw [getKeyD, getKey_setKey_ne _ _ _ _ (by decide), hc]
          rfl
        | some v =>
          show getKeyD (setKey (setKey (copyProps [("config", cfg)] (forInProps res))
            "data" d) "data" v) "config" = cfg
          rw [getKeyD, getKey_setKey_ne _ _ _ _ (by decide),
            getKey_setKey_ne _ _ _ _ (by decide), hc]
          rfl
  refine ⟨hmain, ?_⟩
  intro fuel defaults urlStr config _method _data req e hrun
  rw [redaxiosRun] at hrun
  have hrun2 : (redaxiosBuild fuel host defaults none urlStr config _method _data
      >>= fun pr => some (pr.1, handleResponse host pr.2 config res))
      = some (req, e) := hrun
  cases hb : redaxiosBuild fuel host defaults none urlStr config _method _data with
  | none =>
    rw [hb] at hrun2
    exact absurd hrun2 (by simp)
  | some pr =>
    rw [hb] at hrun2
    have h3 := Prod.ext_iff.mp (Option.some.inj hrun2)
    have he : handleResponse host pr.2 config res = e := h3.2
    rw [← he]
    exact hmain pr.2 config

/-- Witness for claim C8: a concrete per-call config object is carried back
verbatim in the envelope. -/
theorem c8_envelope_config_raw_witness :
    respConfig (handleResponse demoHost (JVal.obj []) (JVal.obj [("u", JVal.str "1")])
      demoResText) = JVal.obj [("u", JVal.str "1")] :=
  (c8_envelope_config_raw demoHost demoResText
    (by intro p hp; simp [demoResText] at hp)).1 (JVal.obj []) (JVal.obj [("u", JVal.str "1")])

/-- Counterexample to claim C8 as stated: a url-only call against non-empty
defaults settles with an `undefined` config field, while the resolved
(merged) configuration is the non-empty defaults object — the envelope does
not carry the merged configuration. -/
theorem c8_counterexample_url_only_config_undefined :
    (redaxiosRun 9 demoHost (JVal.obj [("a", JVal.str "b")]) none (JVal.str "/foo")
        JVal.undef JVal.undef JVal.undef demoResText).map (fun p => respConfig p.2)
      = some JVal.undef ∧
    deepMergeF 9 (JVal.obj [("a", JVal.str "b")]) JVal.undef false
      = some (JVal.obj [("a", JVal.str "b")]) := ⟨rfl, rfl⟩

theorem string_ext_data {a b : String} (h : a.data = b.data) : a = b := by
  cases a; cases b; exact congrArg String.mk h

theorem prefix_names_eq (x : List Char) :
    ∀ (y w : List Char), '=' ∉ x → '=' ∉ y →
      (x ++ ['=']) <+: (y ++ '=' :: w) → x = y := by
  induction x with
  | nil =>
    intro y w _ hy h
    cases y with
    | nil => rfl
    | cons d y2 =>
      rw [List.nil_append] at h
      have := (List.cons_prefix_cons.mp h).1
      exact absurd (this ▸ List.mem_cons_self d y2) hy
  | cons c x2 ih =>
    intro y w hx hy h
    cases y with
    | nil =>
      rw [List.nil_append, List.cons_append] at h
      have := (List.cons_prefix_cons.mp h).1
      exact absurd (this ▸ List.mem_cons_self c x2) hx
    | cons d y2 =>
      rw [List.cons_append, List.cons_append] at h
      obtain ⟨hcd, htail⟩ := List.cons_prefix_cons.mp h
      rw [hcd, ih y2 w (fun hm => hx (List.mem_cons_of_mem c hm))
        (fun hm => hy (List.mem_cons_of_mem d hm)) htail]

theorem scanFor_append_skip (seg : List Char) :
    ∀ (l p : List Char), ';' ∉ seg →
      scanFor (seg ++ l) (';' :: p) = scanFor l (';' :: p) := by
  induction seg with
  | nil => intro l p _; rfl
  | cons c seg2 ih =>
    intro l p hseg
    rw [List.cons_append, scanFor]
    have hc : (';' == c) = false := by
      simp only [beq_eq_false_iff_ne]
      exact fun e => hseg (e ▸ List.mem_cons_self c seg2)
    rw [if_neg (by simp [List.isPrefixOf, hc])]
    exact ih l p (fun hm => hseg (List.mem_cons_of_mem c hm))

theorem cookieValue_append_no_semi (l : List Char) :
    ∀ m : List Char, ';' ∉ l → cookieValue (l ++ m) = l ++ cookieValue m := by
  induction l with
  | nil => intro m _; rfl
  | cons c l2 ih =>
    intro m hl
    have hc : c ≠ ';' := fun e => hl (e ▸ List.mem_cons_self c l2)
    rw [List.cons_append]
    show (c :: (l2 ++ m)).takeWhile (fun c => decide (c ≠ ';'))
      = (c :: l2) ++ cookieValue m
    rw [List.takeWhile_cons, if_pos (by simpa using hc), List.cons_append]
    exact congrArg (fun z => c :: z) (ih m (fun hm => hl (List.mem_cons_of_mem c hm)))

theorem cookieValue_no_semi (l : List Char) (hl : ';' ∉ l) : cookieValue l = l := by
  have h1 := cookieValue_append_no_semi l [] hl
  rw [List.append_nil] at h1
  rw [h1, show cookieValue [] = [] from rfl, List.append_nil]

/-- Correspondence between the regular-expression cookie lookup of the
source and the cookie list it scans: on a well-formed ambient cookie
string (names free of `;` and `=`, values free of `;`), the match succeeds
exactly on the first pair carrying the searched name and captures its
value.  The searched name may be arbitrary as long as it contains no `=`;
in particular it may be the string `undefined` produced by coercing an
unset option. -/
theorem cookieMatch_join (n : String) (hn2 : '=' ∉ n.data) :
    ∀ pairs : List (String × String),
      (∀ p ∈ pairs, ';' ∉ p.1.data ∧ '=' ∉ p.1.data ∧ ';' ∉ p.2.data) →
      cookieMatch (joinCookies pairs) n
        = (pairs.find? (fun p => p.1 == n)).map (fun p => p.2) := by
  have hnm : (n ++ "=").data = n.data ++ ['='] := by
    rw [String.data_append]
  have hpat : ("; " ++ n ++ "=").data = ';' :: ' ' :: (n.data ++ ['=']) := by
    rw [String.data_append, String.data_append]
    rfl
  intro pairs
  induction pairs with
  | nil =>
    intro _
    have hp1 : ¬(((n ++ "=").data).isPrefixOf (joinCookies []).data = true) := by
      rw [hnm]
      cases hc : n.data with
      | nil => simp [List.isPrefixOf, joinCookies]
      | cons c r => simp [List.isPrefixOf, joinCookies]
    rw [cookieMatch, if_neg hp1, hpat]
    rfl
  | cons hd rest ih =>
    intro hwf
    obtain ⟨a, b⟩ := hd
    obtain ⟨ha1, ha2, hb1⟩ := hwf (a, b) (List.mem_cons_self _ _)
    have hwfrest : ∀ p ∈ rest, ';' ∉ p.1.data ∧ '=' ∉ p.1.data ∧ ';' ∉ p.2.data :=
      fun p hp => hwf p (List.mem_cons_of_mem _ hp)
    by_cases han : a = n
    · subst han
      have hfind : ((a, b) :: rest).find? (fun p => p.1 == a) = some (a, b) := by
        simp [List.find?_cons]
      rw [hfind]
      cases rest with
      | nil =>
        have hJ : (joinCookies [(a, b)]).data = (a.data ++ ['=']) ++ b.data := by
          rw [joinCookies, String.data_append, String.data_append]
        rw [cookieMatch, hJ, hnm]
        rw [if_pos (List.isPrefixOf_iff_prefix.mpr ⟨b.data, rfl⟩)]
        rw [List.drop_left]
        rw [cookieValue_no_semi b.data hb1]
        rfl
      | cons r1 rs =>
        have hJ : (joinCookies ((a, b) :: r1 :: rs)).data
            = (a.data ++ ['=']) ++ (b.data ++ ';' :: ' ' :: (joinCookies (r1 :: rs)).data) := by
          rw [show joinCookies ((a, b) :: r1 :: rs)
              = a ++ "=" ++ b ++ "; " ++ joinCookies (r1 :: rs) from rfl]
          rw [String.data_append, String.data_append, String.data_append,
            String.data_append]
          simp
        rw [cookieMatch, hJ, hnm]
        rw [if_pos (List.isPrefixOf_iff_prefix.mpr ⟨_, rfl⟩)]
        rw [List.drop_left]
        rw [cookieValue_append_no_semi b.data _ hb1]
        rw [show cookieValue (';' :: ' ' :: (joinCookies (r1 :: rs)).data) = [] from rfl]
        rw [List.append_nil]
        rfl
    · have hfind : ((a, b) :: rest).find? (fun p => p.1 == n)
          = rest.find? (fun p => p.1 == n) := by
        have hane : (a == n) = false := by
          simp only [beq_eq_false_iff_ne]
          exact han
        simp [List.find?_cons, hane]
      rw [hfind]
      have hseg : ';' ∉ (a.data ++ '=' :: b.data) := by
        intro hm
        rcases List.mem_append.mp hm with h | h
        · exact ha1 h
        · rcases List.mem_cons.mp h with h2 | h2
          · exact absurd h2 (by decide)
          · exact hb1 h2
      cases rest with
      | nil =>
        have hJ : (joinCookies [(a, b)]).data = a.data ++ '=' :: b.data := by
          rw [joinCookies, String.data_append, String.data_append]
          simp
        rw [cookieMatch, hJ, hnm]
        rw [if_neg ?hp1]
        case hp1 =>
          intro hpre
          exact han (string_ext_data (prefix_names_eq n.data a.data b.data hn2 ha2
            (List.isPrefixOf_iff_prefix.mp hpre))).symm
        rw [hpat]
        rw [show a.data ++ '=' :: b.data = (a.data ++ '=' :: b.data) ++ [] from
          (List.append_nil _).symm]
        rw [scanFor_append_skip _ _ _ hseg]
        rfl
      | cons r1 rs =>
        have hJ : (joinCookies ((a, b) :: r1 :: rs)).data
            = a.data ++ '=' :: (b.data ++ ';' :: ' ' :: (joinCookies (r1 :: rs)).data) := by
          rw [show joinCookies ((a, b) :: r1 :: rs)
              = a ++ "=" ++ b ++ "; " ++ joinCookies (r1 :: rs) from rfl]
          rw [String.data_append, String.data_append, String.data_append,
            String.data_append]
          simp
        rw [cookieMatch, hJ, hnm]
        rw [if_neg ?hp2]
        case hp2 =>
          intro hpre
          exact han (string_ext_data (prefix_names_eq n.data a.data _ hn2 ha2
            (List.isPrefixOf_iff_prefix.mp hpre))).symm
        rw [hpat]
        rw [show a.data ++ '=' :: (b.data ++ ';' :: ' ' :: (joinCookies (r1 :: rs)).data)
            = (a.data ++ '=' :: b.data) ++ (';' :: ' ' :: (joinCookies (r1 :: rs)).data)
          from by simp]
        rw [scanFor_append_skip _ _ _ hseg]
        rw [← ih hwfrest, cookieMatch, hnm]
        by_cases hpre2 : (n.data ++ ['=']).isPrefixOf (joinCookies (r1 :: rs)).data = true
        · rw [scanFor, if_pos ?hbig]
          case hbig =>
            show (';' :: ' ' :: (n.data ++ ['='])).isPrefixOf
              (';' :: ' ' :: (joinCookies (r1 :: rs)).data) = true
            show (n.data ++ ['=']).isPrefixOf (joinCookies (r1 :: rs)).data = true
            exact hpre2
          rw [if_pos hpre2]
          have hdrop : (';' :: ' ' :: (joinCookies (r1 :: rs)).data).drop
              ((';' :: ' ' :: (n.data ++ ['='])).length)
              = (joinCookies (r1 :: rs)).data.drop ((n.data ++ ['=']).length) := by
            simp [List.length_cons]
          rw [hdrop]
          rfl
        · rw [scanFor, if_neg ?hbig2]
          case hbig2 =>
            show ¬((';' :: ' ' :: (n.data ++ ['='])).isPrefixOf
              (';' :: ' ' :: (joinCookies (r1 :: rs)).data) = true)
            show ¬((n.data ++ ['=']).isPrefixOf (joinCookies (r1 :: rs)).data = true)
            exact hpre2
          rw [scanFor, if_neg (by simp [List.isPrefixOf])]
          rw [if_neg (by simp [hpre2])]
          rw [hpat]

/-- Claim C9 (amended).  The XSRF step is a silent no-op without a matching
cookie, but the cookie name it looks for is the string coercion of the
`xsrfCookieName` option (so the literal name `undefined` when the option is
unset): with no ambient cookie store, or with a well-formed cookie string
containing no cookie of that coerced name, the custom headers are left
unchanged and no error is raised; when the coerced name is present, the
header named by the string coercion of `xsrfHeaderName` is set to the
decoded cookie value. -/
theorem c9_xsrf_silent_noop (host : Host) (options : JVal)
    (custom : List (String × JVal)) (pairs : List (String × String)) (n : String)
    (hname : jsToString (jsGetProp options "xsrfCookieName") = n)
    (hn2 : '=' ∉ n.data)
    (hwf : ∀ p ∈ pairs, ';' ∉ p.1.data ∧ '=' ∉ p.1.data ∧ ';' ∉ p.2.data) :
    addXsrf host none options custom = custom ∧
    (pairs.find? (fun p => p.1 == n) = none →
      addXsrf host (some (joinCookies pairs)) options custom = custom) ∧
    (∀ a v, pairs.find? (fun p => p.1 == n) = some (a, v) →
      addXsrf host (some (joinCookies pairs)) options custom
        = setKey custom (jsToString (jsGetProp options "xsrfHeaderName"))
            (JVal.str (host.decodeURIComp v))) := by
  refine ⟨rfl, ?_, ?_⟩
  · intro hnone
    simp only [addXsrf, hname]
    rw [cookieMatch_join n hn2 pairs hwf, hnone]
    rfl
  · intro a v hsome
    simp only [addXsrf, hname]
    rw [cookieMatch_join n hn2 pairs hwf, hsome]
    rfl

/-- Witness for claim C9 at a concrete option pair and cookie store. -/
theorem c9_xsrf_silent_noop_witness :
    addXsrf demoHost (some (joinCookies [("a", "1")]))
      (JVal.obj [("xsrfCookieName", JVal.str "XSRF-TOKEN"),
                 ("xsrfHeaderName", JVal.str "x-xsrf-token")]) [] = [] ∧
    addXsrf demoHost (some (joinCookies [("a", "1"), ("XSRF-TOKEN", "tok")]))
      (JVal.obj [("xsrfCookieName", JVal.str "XSRF-TOKEN"),
                 ("xsrfHeaderName", JVal.str "x-xsrf-token")]) []
      = setKey [] (jsToString (jsGetProp
          (JVal.obj [("xsrfCookieName", JVal.str "XSRF-TOKEN"),
                     ("xsrfHeaderName", JVal.str "x-xsrf-token")]) "xsrfHeaderName"))
          (JVal.str (demoHost.decodeURIComp "tok")) := by
  constructor
  · exact (c9_xsrf_silent_noop demoHost
      (JVal.obj [("xsrfCookieName", JVal.str "XSRF-TOKEN"),
                 ("xsrfHeaderName", JVal.str "x-xsrf-token")]) [] [("a", "1")]
      "XSRF-TOKEN" rfl (by decide) (by decide)).2.1 rfl
  · exact (c9_xsrf_silent_noop demoHost
      (JVal.obj [("xsrfCookieName", JVal.str "XSRF-TOKEN"),
                 ("xsrfHeaderName", JVal.str "x-xsrf-token")]) []
      [("a", "1"), ("XSRF-TOKEN", "tok")]
      "XSRF-TOKEN" rfl (by decide) (by decide)).2.2 "XSRF-TOKEN" "tok" rfl

/-- Counterexample to claim C9 as stated: with `xsrfCookieName` unset and
an ambient cookie literally named `undefined`, the build adds a header
(named `undefined`, the string coercion of the unset `xsrfHeaderName`)
to the outgoing request, although the claim says no header is added when
the option is not set. -/
theorem c9_counterexample_undefined_cookie :
    (redaxiosBuild 9 demoHost (JVal.obj []) (some (joinCookies [("undefined", "x")]))
        "/u" JVal.undef JVal.undef JVal.undef).map
      (fun p => jsGetProp p.1.headers "undefined") = some (JVal.str "x") ∧
    jsGetProp (JVal.obj []) "xsrfCookieName" = JVal.undef := ⟨rfl, rfl⟩
